import Mathlib

/-
Verification development for the gaze-tracking repository
(dottask / imagetask gaze processing pipeline).

Part 1 embeds the Stream Processor (processors/gaze_processor.py, both the
dottask and imagetask variants) as a pure state-transition function.
Part 2 embeds the Event Analyzer (dottask/processors/gaze_analyzer.py).

Modelling conventions:
 - Python floats are modelled by exact rationals (inputs, timestamps, stored
   velocities of the analyzer) and by real numbers where an actual square
   root is computed (Euclidean distances, the velocity stored by the stream
   processor).
 - Python `int(x)` truncates a float toward zero; on exact rationals this is
   `ratTrunc` below.  Python integer floor division `//` is `Int.fdiv`.
 - A Python dict used as a counter is modelled as a total function with
   default value 0.
 - `time.time()` is an external input; the step function takes the current
   time as an argument.
-/

namespace GazeTracking

/-- Truncation of a rational toward zero, the behaviour of Python `int(x)`
on an exact value. -/
def ratTrunc (q : ℚ) : ℤ :=
  Int.tdiv q.num (q.den : ℤ)

/-- Squared Euclidean distance between two integer pixel positions.  The
source computes `np.sqrt(dx*dx + dy*dy)`; this is the radicand. -/
def dist2 (p q : ℤ × ℤ) : ℤ :=
  (q.1 - p.1) * (q.1 - p.1) + (q.2 - p.2) * (q.2 - p.2)

/-- Euclidean distance, `_calculate_distance` of the source:
`np.sqrt(dx*dx + dy*dy)`. -/
noncomputable def calcDistance (p q : ℤ × ℤ) : ℝ :=
  Real.sqrt ((dist2 p q : ℤ) : ℝ)

namespace Processor

/-- GazePoint of processors/gaze_processor.py.  The stored velocity is a
real number because the source stores `sqrt(dx*dx+dy*dy)/dt`. -/
structure GazePoint where
  timestamp : ℚ
  position : ℤ × ℤ
  velocity : ℝ

/-- The mutable state of a GazeProcessor instance (its `__init__` fields).
`SMOOTHING_FACTOR` is the constant 0.15 and is kept as a global definition;
the trail deque capacity 25 is likewise structural. -/
structure State where
  width : ℤ
  height : ℤ
  gaze_history : List (ℤ × ℤ)
  current_gaze : Option (ℤ × ℤ)
  smoothed_gaze : Option (ℚ × ℚ)
  last_gaze_time : Option ℚ
  raw_gaze_points : List GazePoint
  is_recording : Bool

/-- The fixed smoothing factor 0.15 set in `__init__`. -/
def smoothingFactor : ℚ := 15 / 100

/-- The fixed trail deque capacity (`deque(maxlen=25)`). -/
def trailCapacity : ℕ := 25

/-- A freshly constructed GazeProcessor (`__init__`). -/
def init (w h : ℤ) : State :=
  { width := w
    height := h
    gaze_history := []
    current_gaze := none
    smoothed_gaze := none
    last_gaze_time := none
    raw_gaze_points := []
    is_recording := true }

/-- `smooth_position`: exponential blend toward the target with
factor `SMOOTHING_FACTOR`. -/
def smooth_position (current target : ℚ × ℚ) : ℚ × ℚ :=
  (current.1 + (target.1 - current.1) * smoothingFactor,
   current.2 + (target.2 - current.2) * smoothingFactor)

/-- `calculate_velocity`: Euclidean distance over the time delta,
0 when `dt <= 0`. -/
noncomputable def calculate_velocity (pos1 pos2 : ℤ × ℤ) (dt : ℚ) : ℝ :=
  if dt ≤ 0 then 0 else calcDistance pos1 pos2 / (dt : ℝ)

/-- Appending to a `deque(maxlen=25)`: once full, the oldest entry is
evicted. -/
def dequeAppend (l : List (ℤ × ℤ)) (x : ℤ × ℤ) : List (ℤ × ℤ) :=
  if l.length < trailCapacity then l ++ [x] else l.tail ++ [x]

/-- The validity test of `process_gaze_data`:
`all(0.0 <= coord <= 1.0 for coord in [left_x, left_y, right_x, right_y])`. -/
def coordsOk (le re : ℚ × ℚ) : Bool :=
  decide (0 ≤ le.1) && decide (le.1 ≤ 1) &&
  decide (0 ≤ le.2) && decide (le.2 ≤ 1) &&
  decide (0 ≤ re.1) && decide (re.1 ≤ 1) &&
  decide (0 ≤ re.2) && decide (re.2 ≤ 1)

/-- A raw binocular sample: the two optional eye tuples of the incoming
dict (`left_gaze_point_on_display_area`, `right_gaze_point_on_display_area`).
A missing or falsy entry is `none`. -/
def Sample : Type := Option (ℚ × ℚ) × Option (ℚ × ℚ)

/-- Pixel position computed from an accepted sample:
`(int((lx+rx)/2*width), int((ly+ry)/2*height))`. -/
def pixelPos (w h : ℤ) (le re : ℚ × ℚ) : ℤ × ℤ :=
  (ratTrunc ((le.1 + re.1) / 2 * (w : ℚ)),
   ratTrunc ((le.2 + re.2) / 2 * (h : ℚ)))

/-- `process_gaze_data` of the dottask variant.  The velocity is computed
only when `last_gaze_time` is set, and inside that branch only when
`raw_gaze_points` is nonempty; otherwise it stays at the initial 0.0. -/
noncomputable def processGazeData (s : State) (sample : Sample) (current_time : ℚ) :
    State :=
  if s.is_recording = true then
    match sample.1, sample.2 with
    | some le, some re =>
      if coordsOk le re then
        let raw : ℤ × ℤ := pixelPos s.width s.height le re
        let raw_velocity : ℝ :=
          match s.last_gaze_time with
          | none => 0
          | some t0 =>
            match s.raw_gaze_points.getLast? with
            | none => 0
            | some prev => calculate_velocity prev.position raw (current_time - t0)
        let smoothed : ℚ × ℚ :=
          match s.smoothed_gaze with
          | none => ((raw.1 : ℚ), (raw.2 : ℚ))
          | some sm => smooth_position sm ((raw.1 : ℚ), (raw.2 : ℚ))
        let cur : ℤ × ℤ := (ratTrunc smoothed.1, ratTrunc smoothed.2)
        { s with
            raw_gaze_points :=
              s.raw_gaze_points ++ [⟨current_time, raw, raw_velocity⟩]
            smoothed_gaze := some smoothed
            current_gaze := some cur
            gaze_history := dequeAppend s.gaze_history cur
            last_gaze_time := some current_time }
      else
        s
    | _, _ => { s with current_gaze := none }
  else
    s

/-- `process_gaze_data` of the imagetask variant.  Identical except the
velocity guard is a single conjunction
(`if self.last_gaze_time is not None and self.raw_gaze_points:`). -/
noncomputable def processGazeDataIT (s : State) (sample : Sample) (current_time : ℚ) :
    State :=
  if s.is_recording = true then
    match sample.1, sample.2 with
    | some le, some re =>
      if coordsOk le re then
        let raw : ℤ × ℤ := pixelPos s.width s.height le re
        let raw_velocity : ℝ :=
          match s.last_gaze_time, s.raw_gaze_points.getLast? with
          | some t0, some prev => calculate_velocity prev.position raw (current_time - t0)
          | _, _ => 0
        let smoothed : ℚ × ℚ :=
          match s.smoothed_gaze with
          | none => ((raw.1 : ℚ), (raw.2 : ℚ))
          | some sm => smooth_position sm ((raw.1 : ℚ), (raw.2 : ℚ))
        let cur : ℤ × ℤ := (ratTrunc smoothed.1, ratTrunc smoothed.2)
        { s with
            raw_gaze_points :=
              s.raw_gaze_points ++ [⟨current_time, raw, raw_velocity⟩]
            smoothed_gaze := some smoothed
            current_gaze := some cur
            gaze_history := dequeAppend s.gaze_history cur
            last_gaze_time := some current_time }
      else
        s
    | _, _ => { s with current_gaze := none }
  else
    s

/-- `stop_recording`. -/
def stopRecording (s : State) : State := { s with is_recording := false }

/-- `start_recording`. -/
def startRecording (s : State) : State := { s with is_recording := true }

/-- `reset`: clears the trail, the display positions, the timing state and
the raw point buffer, and re-enables recording. -/
def reset (s : State) : State :=
  { s with
      gaze_history := []
      current_gaze := none
      smoothed_gaze := none
      last_gaze_time := none
      raw_gaze_points := []
      is_recording := true }

/-- States reachable from a freshly constructed processor through the
public operations. -/
inductive Reachable : State → Prop where
  | init (w h : ℤ) : Reachable (init w h)
  | step (s : State) (sample : Sample) (t : ℚ) :
      Reachable s → Reachable (processGazeData s sample t)
  | stop (s : State) : Reachable s → Reachable (stopRecording s)
  | start (s : State) : Reachable s → Reachable (startRecording s)
  | reset (s : State) : Reachable s → Reachable (reset s)

end Processor

namespace Analyzer

/-- GazePoint of processors/gaze_analyzer.py (a second dataclass of the same
shape; its velocity is plain stored data, modelled as a rational). -/
structure GazePoint where
  timestamp : ℚ
  position : ℤ × ℤ
  velocity : ℚ
deriving DecidableEq

/-- Fallback point for positional lookups that the source guards by length
checks. -/
def dfltPoint : GazePoint := ⟨0, (0, 0), 0⟩

/-- Fixation record of the source.  In the source
`start_time_absolut`/`end_time_absolut` are set to the same values as
`start_time`/`end_time`. -/
structure Fixation where
  start_time : ℚ
  end_time : ℚ
  start_time_absolut : ℚ
  end_time_absolut : ℚ
  center_position : ℤ × ℤ
  duration : ℚ
  gaze_points : List GazePoint
deriving DecidableEq

/-- Fallback fixation for list lookups guarded by nonemptiness checks. -/
def dfltFixation : Fixation := ⟨0, 0, 0, 0, (0, 0), 0, []⟩

/-- SaccadeSegment record of the source. -/
structure SaccadeSegment where
  start_position : ℤ × ℤ
  end_position : ℤ × ℤ
  mean_velocity : ℚ
  peak_velocity : ℚ
  gaze_point_count : ℕ
deriving DecidableEq

/-- Saccade record of the source.  The stored fields `amplitude` and
`distance_traveled` are square roots of integers; since the record is
immutable and they are set at construction to pure functions of the other
fields, they are modelled as the derived functions `Saccade.amplitude` and
`Saccade.distance_traveled` below, keeping the record itself computable. -/
structure Saccade where
  start_time : ℚ
  end_time : ℚ
  start_time_absolut : ℚ
  end_time_absolut : ℚ
  start_position : ℤ × ℤ
  end_position : ℤ × ℤ
  duration : ℚ
  peak_velocity : ℚ
  mean_velocity : ℚ
  gaze_points : List GazePoint
  segments : List SaccadeSegment
deriving DecidableEq

/-- The three construction parameters of GazeAnalyzer (upper-case constants
in the source). -/
structure Params where
  fixation_threshold : ℚ
  fixation_duration_threshold : ℚ
  saccade_velocity_threshold : ℚ

/-- The default parameters (30 px, 0.1 s, 300 px/s). -/
def defaultParams : Params := ⟨30, 1 / 10, 300⟩

/-- The coarse counting heatmap `heatmap_data`: a dict with default count
0, modelled as a total function. -/
def HeatMap : Type := (ℤ × ℤ) → ℕ

/-- The 20-pixel bucket of a position: `(x // 20 * 20, y // 20 * 20)` with
Python floor division. -/
def quantize (pos : ℤ × ℤ) : ℤ × ℤ :=
  (Int.fdiv pos.1 20 * 20, Int.fdiv pos.2 20 * 20)

/-- `heatmap_data[pos] = heatmap_data.get(pos, 0) + w`. -/
def bump (h : HeatMap) (pos : ℤ × ℤ) (w : ℕ) : HeatMap :=
  fun q => if q = pos then h q + w else h q

/-- `_calculate_centroid`: integer truncation of the mean of the x and
y coordinates (`int(x_sum / count)`). -/
def calculateCentroid (positions : List (ℤ × ℤ)) : ℤ × ℤ :=
  let x_sum := (positions.map Prod.fst).sum
  let y_sum := (positions.map Prod.snd).sum
  let count := positions.length
  (ratTrunc ((x_sum : ℚ) / (count : ℚ)), ratTrunc ((y_sum : ℚ) / (count : ℚ)))

/-- Decision of the dispersion test `np.sqrt(d2) > t` on the squared
distance `d2 ≥ 0`: the square root exceeds `t` exactly when `t` is negative
or `t * t < d2`.  The lemma `distExceeds_iff_sqrt` below ties this to the
real square root of the source. -/
def distExceeds (d2 : ℤ) (t : ℚ) : Bool :=
  decide (t < 0) || decide ((t * t : ℚ) < (d2 : ℚ))

/-- Duration of a candidate segment:
`points[-1].timestamp - points[0].timestamp` (0 for the unreached empty
case). -/
def segDuration : List GazePoint → ℚ
  | [] => 0
  | p :: ps => ((p :: ps).getLastD dfltPoint).timestamp - p.timestamp

/-- `_create_fixation`: appends a Fixation built over `points` (and bumps
the heatmap by 5 at the quantized centroid) when the duration meets
`FIXATION_DURATION_THRESHOLD`; otherwise leaves both untouched.  All call
sites pass at least two points, so the empty case is unreached. -/
def createFixation (durThr : ℚ) (points : List GazePoint)
    (fixations : List Fixation) (heat : HeatMap) : List Fixation × HeatMap :=
  match points with
  | [] => (fixations, heat)
  | p :: ps =>
    let lastP := (p :: ps).getLastD dfltPoint
    let duration := lastP.timestamp - p.timestamp
    if durThr ≤ duration then
      let center := calculateCentroid ((p :: ps).map GazePoint.position)
      let f : Fixation :=
        { start_time := p.timestamp
          end_time := lastP.timestamp
          start_time_absolut := p.timestamp
          end_time_absolut := lastP.timestamp
          center_position := center
          duration := duration
          gaze_points := p :: ps }
      (fixations ++ [f], bump heat (quantize center) 5)
    else
      (fixations, heat)

/-- `max` over a nonempty collection, as `foldl` over the tail. -/
def listMaxQ (x : ℚ) (xs : List ℚ) : ℚ := xs.foldl max x

/-- `min` over a nonempty collection, as `foldl` over the tail. -/
def listMinQ (x : ℚ) (xs : List ℚ) : ℚ := xs.foldl min x

/-- `max(p.velocity for p in points)` (0 for the unreached empty case). -/
def maxVelOf : List GazePoint → ℚ
  | [] => 0
  | p :: ps => listMaxQ p.velocity (ps.map GazePoint.velocity)

/-- `min(p.velocity for p in points)` (0 for the unreached empty case). -/
def minVelOf : List GazePoint → ℚ
  | [] => 0
  | p :: ps => listMinQ p.velocity (ps.map GazePoint.velocity)

/-- `which_bin`: 0 = LOW (`v < bin1`), 1 = MEDIUM (`v < bin2`),
2 = HIGH. -/
def whichBin (bin1 bin2 v : ℚ) : ℕ :=
  if v < bin1 then 0 else if v < bin2 then 1 else 2

/-- The bin of the consecutive pair `(points[i], points[i+1])`, computed on
the midpoint velocity `0.5 * (p1.velocity + p2.velocity)`. -/
def pairBin (points : List GazePoint) (bin1 bin2 : ℚ) (i : ℕ) : ℕ :=
  whichBin bin1 bin2
    (((points.getD i dfltPoint).velocity + (points.getD (i + 1) dfltPoint).velocity) / 2)

/-- Python slice `l[s : e]`. -/
def pySlice (l : List GazePoint) (s e : ℕ) : List GazePoint :=
  (l.drop s).take (e - s)

/-- Building one SaccadeSegment from `seg_points`; the `min_vel` fallbacks
mirror the `if seg_points else min_vel` guards of the source (the empty
case is unreached because `seg_start_index ≤ i`). -/
def mkSegment (min_vel : ℚ) : List GazePoint → SaccadeSegment
  | [] => ⟨(0, 0), (0, 0), min_vel, min_vel, 0⟩
  | q :: qs =>
    { start_position := q.position
      end_position := ((q :: qs).getLastD dfltPoint).position
      mean_velocity := ((q :: qs).map GazePoint.velocity).sum / (((q :: qs).length : ℚ))
      peak_velocity := listMaxQ q.velocity (qs.map GazePoint.velocity)
      gaze_point_count := (q :: qs).length }

/-- The pair-grouping loop of `_create_saccade` (the `for i in
range(len(points) - 1)` loop plus the final close).  `fuel` counts the
remaining loop iterations; the loop is entered with `fuel =
len(points) - 1`, `i = 0`, `seg_start_index = 0` and `current_bin = None`,
and on exhaustion the last open segment `points[seg_start_index:]` is
closed. -/
def segLoopAux (points : List GazePoint) (bin1 bin2 min_vel : ℚ) :
    ℕ → ℕ → ℕ → Option ℕ → List SaccadeSegment → List SaccadeSegment
  | 0, _i, segStart, _curBin, segs =>
      segs ++ [mkSegment min_vel (points.drop segStart)]
  | fuel + 1, i, segStart, curBin, segs =>
      let b := pairBin points bin1 bin2 i
      match curBin with
      | none => segLoopAux points bin1 bin2 min_vel fuel (i + 1) i (some b) segs
      | some cb =>
        if b ≠ cb then
          segLoopAux points bin1 bin2 min_vel fuel (i + 1) i (some b)
            (segs ++ [mkSegment min_vel (pySlice points segStart (i + 1))])
        else
          segLoopAux points bin1 bin2 min_vel fuel (i + 1) segStart (some cb) segs

/-- The full velocity sub-segmentation for the unequal-velocity branch. -/
def segLoop (points : List GazePoint) (bin1 bin2 min_vel : ℚ) :
    List SaccadeSegment :=
  segLoopAux points bin1 bin2 min_vel (points.length - 1) 0 0 none []

/-- `_create_saccade`: `none` models the early `return` for fewer than two
points (nothing is appended). -/
def createSaccade (points : List GazePoint) : Option Saccade :=
  match points with
  | [] => none
  | [_] => none
  | p0 :: p1 :: rest =>
    let pts := p0 :: p1 :: rest
    let lastP := pts.getLastD dfltPoint
    let start_time := p0.timestamp
    let end_time := lastP.timestamp
    let start_pos := p0.position
    let end_pos := lastP.position
    let min_vel := minVelOf pts
    let max_vel := maxVelOf pts
    let segments : List SaccadeSegment :=
      if min_vel = max_vel then
        [{ start_position := start_pos
           end_position := end_pos
           mean_velocity := min_vel
           peak_velocity := max_vel
           gaze_point_count := pts.length }]
      else
        let bin1 := min_vel + (max_vel - min_vel) / 3
        let bin2 := min_vel + 2 * (max_vel - min_vel) / 3
        segLoop pts bin1 bin2 min_vel
    some
      { start_time := start_time
        end_time := end_time
        start_time_absolut := start_time
        end_time_absolut := end_time
        start_position := start_pos
        end_position := end_pos
        duration := end_time - start_time
        peak_velocity := maxVelOf pts
        mean_velocity := (pts.map GazePoint.velocity).sum / ((pts.length : ℚ))
        gaze_points := pts
        segments := segments }

/-- Appending the result of `_create_saccade` to the saccade list. -/
def addSaccade (saccades : List Saccade) (points : List GazePoint) :
    List Saccade :=
  match createSaccade points with
  | none => saccades
  | some s => saccades ++ [s]

/-- The mutable state of `_detect_events`: the two event lists, the
heatmap touched by `_create_fixation`, the open segment and the
`in_fixation` flag. -/
structure DState where
  fixations : List Fixation
  saccades : List Saccade
  heat : HeatMap
  segment : List GazePoint
  inFixation : Bool

/-- The state at the top of `_detect_events` (fresh lists, `heatmap_data`
empty from `__init__`, empty segment, flag false). -/
def initialDState : DState := ⟨[], [], fun _ => 0, [], false⟩

/-- The body of the `for point in gaze_points` loop of `_detect_events`. -/
def stepPoint (P : Params) (st : DState) (p : GazePoint) : DState :=
  if P.saccade_velocity_threshold < p.velocity then
    let st1 :=
      if st.inFixation then
        let fh :=
          if 3 ≤ st.segment.length then
            createFixation P.fixation_duration_threshold st.segment st.fixations st.heat
          else (st.fixations, st.heat)
        { st with fixations := fh.1, heat := fh.2, segment := [], inFixation := false }
      else st
    { st1 with segment := st1.segment ++ [p] }
  else
    let st1 :=
      if st.inFixation = false then
        let sc :=
          if 2 ≤ st.segment.length then addSaccade st.saccades st.segment
          else st.saccades
        { st with saccades := sc, segment := [], inFixation := true }
      else st
    let st2 := { st1 with segment := st1.segment ++ [p] }
    if 3 ≤ st2.segment.length then
      let center := calculateCentroid (st2.segment.map GazePoint.position)
      if distExceeds (dist2 p.position center) P.fixation_threshold then
        let fh :=
          if 3 ≤ st2.segment.length then
            createFixation P.fixation_duration_threshold st2.segment.dropLast
              st2.fixations st2.heat
          else (st2.fixations, st2.heat)
        { st2 with fixations := fh.1, heat := fh.2, segment := [p] }
      else st2
    else st2

/-- The flush of the last open segment after the scan. -/
def flushSegment (P : Params) (st : DState) : DState :=
  if 3 ≤ st.segment.length ∧ st.inFixation = true then
    let fh := createFixation P.fixation_duration_threshold st.segment st.fixations st.heat
    { st with fixations := fh.1, heat := fh.2 }
  else if 2 ≤ st.segment.length ∧ st.inFixation = false then
    { st with saccades := addSaccade st.saccades st.segment }
  else st

/-- `_detect_events`: the early return on an empty list, otherwise the scan
followed by the flush. -/
def detectEvents (P : Params) (points : List GazePoint) : DState :=
  match points with
  | [] => initialDState
  | _ => flushSegment P (points.foldl (stepPoint P) initialDState)

/-- `_generate_heatmap`: clears `heatmap_data` and counts every raw point
at its 20-pixel bucket. -/
def generateHeatmap (points : List GazePoint) : HeatMap :=
  points.foldl (fun h p => bump h (quantize p.position) 1) (fun _ => 0)

/-- The observable result of constructing a GazeAnalyzer (its `fixations`,
`saccades` and `heatmap_data` fields after `_analyze_gaze_data`). -/
structure AnalyzerResult where
  fixations : List Fixation
  saccades : List Saccade
  heatmap : HeatMap

/-- `_analyze_gaze_data`, run by `__init__`: `_detect_events` first (which
accumulates the +5 fixation bumps into `heatmap_data`), then
`_generate_heatmap`, which clears `heatmap_data` and rebuilds it by
counting raw points, discarding whatever `_detect_events` wrote into it. -/
def analyze (P : Params) (points : List GazePoint) : AnalyzerResult :=
  let st := detectEvents P points
  { fixations := st.fixations
    saccades := st.saccades
    heatmap := generateHeatmap points }

/-- `_calculate_path_length`: the sum of consecutive distances, 0 for fewer
than two positions. -/
noncomputable def calcPathLength (positions : List (ℤ × ℤ)) : ℝ :=
  if positions.length < 2 then 0
  else ((positions.dropLast.zip positions.tail).map fun pq => calcDistance pq.1 pq.2).sum

/-- The `amplitude` field stored by `_create_saccade`:
`_calculate_distance(start_pos, end_pos)`. -/
noncomputable def Saccade.amplitude (s : Saccade) : ℝ :=
  calcDistance s.start_position s.end_position

/-- The `distance_traveled` field stored by `_create_saccade`:
`_calculate_path_length([p.position for p in points])`. -/
noncomputable def Saccade.distance_traveled (s : Saccade) : ℝ :=
  calcPathLength (s.gaze_points.map GazePoint.position)

/-- The rational-valued entries of the `calculate_metrics` dict.  The three
entries that are sums or means of square roots (`mean_saccade_amplitude`,
`scan_path_length`, `total_saccade_distance`) are modelled as the derived
functions below the record, keeping the record computable. -/
structure Metrics where
  number_of_fixations : ℕ
  number_of_saccades : ℕ
  mean_fixation_duration : ℚ
  total_fixation_time : ℚ
  mean_saccade_velocity : ℚ
  mean_saccade_mean_velocity : ℚ
  total_scan_time : ℚ
  fixation_frequency : ℚ
deriving DecidableEq

/-- Fallback metrics record for `Option.getD`. -/
def dfltMetrics : Metrics := ⟨0, 0, 0, 0, 0, 0, 0, 0⟩

/-- The `mean_saccade_amplitude` entry. -/
noncomputable def meanSaccadeAmplitude (saccades : List Saccade) : ℝ :=
  ((saccades.map Saccade.amplitude).sum) / (saccades.length : ℝ)

/-- The `scan_path_length` entry. -/
noncomputable def scanPathLength (saccades : List Saccade) : ℝ :=
  (saccades.map Saccade.amplitude).sum

/-- The `total_saccade_distance` entry. -/
noncomputable def totalSaccadeDistance (saccades : List Saccade) : ℝ :=
  (saccades.map Saccade.distance_traveled).sum

/-- `calculate_metrics`: the empty dict (`none`) when either event list is
empty; otherwise the aggregate metrics, including the temporal entries
(total scan time between the first fixation start and the last fixation
end, and the fixation frequency, 0 when the span is not positive). -/
def calculateMetrics (fixations : List Fixation) (saccades : List Saccade) :
    Option Metrics :=
  if fixations.isEmpty || saccades.isEmpty then none
  else
    let total_time :=
      (fixations.getLastD dfltFixation).end_time - (fixations.headD dfltFixation).start_time
    some
      { number_of_fixations := fixations.length
        number_of_saccades := saccades.length
        mean_fixation_duration := (fixations.map Fixation.duration).sum / (fixations.length : ℚ)
        total_fixation_time := (fixations.map Fixation.duration).sum
        mean_saccade_velocity := (saccades.map Saccade.peak_velocity).sum / (saccades.length : ℚ)
        mean_saccade_mean_velocity :=
          (saccades.map Saccade.mean_velocity).sum / (saccades.length : ℚ)
        total_scan_time := total_time
        fixation_frequency :=
          if 0 < total_time then (fixations.length : ℚ) / total_time else 0 }

end Analyzer

/-! Concrete inputs used by the witness and counterexample theorems. -/

/-- A processor state as it looks after one accepted sample at position
(10, 10): recording, one raw point, a visible display position. -/
def demoState : Processor.State :=
  { width := 800
    height := 600
    gaze_history := [(10, 10)]
    current_gaze := some (10, 10)
    smoothed_gaze := some (10, 10)
    last_gaze_time := some 1
    raw_gaze_points := [⟨1, (10, 10), 0⟩]
    is_recording := true }

/-- Three zero-velocity points at the origin 0.3 s apart in total: one
fixation of three points, three raw points in bucket (0, 0). -/
def c1pts : List Analyzer.GazePoint :=
  [⟨0, (0, 0), 0⟩, ⟨1 / 5, (0, 0), 0⟩, ⟨3 / 10, (0, 0), 0⟩]

/-- Three fixational points whose third point jumps to (100, 100),
triggering the dispersion split after only three points: the closed
fixation keeps just the first two points. -/
def c4pts : List Analyzer.GazePoint :=
  [⟨0, (0, 0), 0⟩, ⟨1 / 5, (0, 0), 0⟩, ⟨3 / 10, (100, 100), 0⟩]

/-- The two-point fixation the analyzer emits on `c4pts`. -/
def c4fix : Analyzer.Fixation :=
  ⟨0, 1 / 5, 0, 1 / 5, (0, 0), 1 / 5, [⟨0, (0, 0), 0⟩, ⟨1 / 5, (0, 0), 0⟩]⟩

/-- The same split scenario as `c4pts`, used for C3: two points at the
origin then a jump to (100, 100). -/
def c3pts : List Analyzer.GazePoint :=
  [⟨0, (0, 0), 0⟩, ⟨1 / 5, (0, 0), 0⟩, ⟨3 / 10, (100, 100), 0⟩]

/-- The scan state just before the outlier of `c3pts` arrives: an open
two-point fixation segment. -/
def c3st : Analyzer.DState :=
  ⟨[], [], fun _ => 0, [⟨0, (0, 0), 0⟩, ⟨1 / 5, (0, 0), 0⟩], true⟩

/-- The outlier point of `c3pts`. -/
def c3p : Analyzer.GazePoint := ⟨3 / 10, (100, 100), 0⟩

/-- A minimal fixation record used to exercise `calculateMetrics`. -/
def c7fix : Analyzer.Fixation := ⟨0, 1, 0, 1, (0, 0), 1, []⟩

/-- A minimal saccade record used to exercise `calculateMetrics`. -/
def c7sac : Analyzer.Saccade := ⟨0, 1, 0, 1, (0, 0), (0, 0), 1, 0, 0, [], []⟩

/-- The metrics record returned on `[c7fix]` and `[c7sac]`. -/
def c7metrics : Analyzer.Metrics := ⟨1, 1, 1, 1, 0, 0, 1, 1⟩

/-- Two high-velocity points forming a single saccade. -/
def c6pts : List Analyzer.GazePoint :=
  [⟨0, (0, 0), 400⟩, ⟨1 / 100, (10, 0), 500⟩]

/-- The saccade the analyzer emits on `c6pts`. -/
def c6sac : Analyzer.Saccade :=
  ⟨0, 1 / 100, 0, 1 / 100, (0, 0), (10, 0), 1 / 100, 500, 450,
    [⟨0, (0, 0), 400⟩, ⟨1 / 100, (10, 0), 500⟩],
    [⟨(0, 0), (10, 0), 450, 500, 2⟩]⟩

namespace Analyzer

/-- Segment built from the points with indices `a` through `b` inclusive
(Python `points[a : b+1]`). -/
def mkSegFromTo (points : List GazePoint) (min_vel : ℚ) (a b : ℕ) : SaccadeSegment :=
  mkSegment min_vel (pySlice points a (b + 1))

/-- All listed velocities equal the velocity of the first point. -/
def velAllEq (points : List GazePoint) : Prop :=
  ∀ q ∈ points, q.velocity = (points.headD dfltPoint).velocity

/-- Cut-index description of a saccade segment list: the cuts start at
index 0, end at the last point index, and strictly increase; consecutive
cuts delimit the successive segments (so adjacent segments meet exactly at
their junction point, covering every consecutive pair exactly once), and
all pairs inside one segment fall in the bin of its first pair. -/
def CutSpec (points : List GazePoint) (bin1 bin2 min_vel : ℚ)
    (cuts : List ℕ) (segs : List SaccadeSegment) : Prop :=
  cuts.Chain' (· < ·) ∧
  cuts.head? = some 0 ∧
  cuts.getLast? = some (points.length - 1) ∧
  segs = (cuts.zip cuts.tail).map (fun ce => mkSegFromTo points min_vel ce.1 ce.2) ∧
  ∀ ce ∈ cuts.zip cuts.tail, ∀ i : ℕ, ce.1 ≤ i → i < ce.2 →
    pairBin points bin1 bin2 i = pairBin points bin1 bin2 ce.1

end Analyzer

/-- The property C5 asserts of a saccade built from `points`: the
equal-velocity test coincides with all velocities being equal; in the
equal case there is exactly one whole-saccade segment; otherwise the three
bins are the equal-width thirds of the velocity range, each consecutive
pair is binned by its midpoint velocity, and the segments are the
contiguous groups of same-bin pairs described by a cut list. -/
def C5Prop (points : List Analyzer.GazePoint) (s : Analyzer.Saccade) : Prop :=
  let min_vel := Analyzer.minVelOf points
  let max_vel := Analyzer.maxVelOf points
  let bin1 := min_vel + (max_vel - min_vel) / 3
  let bin2 := min_vel + 2 * (max_vel - min_vel) / 3
  (min_vel = max_vel ↔ Analyzer.velAllEq points) ∧
  (min_vel = max_vel →
    s.segments = [⟨(points.headD Analyzer.dfltPoint).position,
                   (points.getLastD Analyzer.dfltPoint).position,
                   min_vel, max_vel, points.length⟩]) ∧
  (min_vel ≠ max_vel →
    (bin1 - min_vel = (max_vel - min_vel) / 3 ∧
     bin2 - bin1 = (max_vel - min_vel) / 3 ∧
     max_vel - bin2 = (max_vel - min_vel) / 3) ∧
    (∀ v : ℚ,
      (Analyzer.whichBin bin1 bin2 v = 0 ↔ v < bin1) ∧
      (Analyzer.whichBin bin1 bin2 v = 1 ↔ bin1 ≤ v ∧ v < bin2) ∧
      (Analyzer.whichBin bin1 bin2 v = 2 ↔ bin2 ≤ v)) ∧
    ∃ cuts, Analyzer.CutSpec points bin1 bin2 min_vel cuts s.segments)

/-- Three saccadic points with distinct velocities 400, 500, 700: the two
pair midpoints 450 and 600 fall in the low and high bins, giving two
segments. -/
def c5pts : List Analyzer.GazePoint :=
  [⟨0, (0, 0), 400⟩, ⟨1 / 100, (10, 0), 500⟩, ⟨1 / 50, (20, 0), 700⟩]

/-- The saccade `createSaccade` builds on `c5pts`. -/
def c5sac : Analyzer.Saccade :=
  ⟨0, 1 / 50, 0, 1 / 50, (0, 0), (20, 0), 1 / 50, 700, 1600 / 3,
    [⟨0, (0, 0), 400⟩, ⟨1 / 100, (10, 0), 500⟩, ⟨1 / 50, (20, 0), 700⟩],
    [⟨(0, 0), (10, 0), 450, 500, 2⟩, ⟨(10, 0), (20, 0), 600, 700, 2⟩]⟩

namespace Analyzer

/-- The invariant every emitted Fixation satisfies: consistent duration at
least the threshold, truncated-centroid center, and at least two points
(the dispersion split can emit two-point fixations, see C3/C4). -/
def FixInv (durThr : ℚ) (f : Fixation) : Prop :=
  f.duration = f.end_time - f.start_time ∧
  durThr ≤ f.duration ∧
  f.center_position = calculateCentroid (f.gaze_points.map GazePoint.position) ∧
  2 ≤ f.gaze_points.length

/-- The structural invariant every emitted Saccade satisfies: at least two
points, endpoints taken from the first and last point, and peak velocity
computed as the running maximum over the velocities. -/
def SaccInv (s : Saccade) : Prop :=
  2 ≤ s.gaze_points.length ∧
  s.start_position = (s.gaze_points.headD dfltPoint).position ∧
  s.end_position = (s.gaze_points.getLastD dfltPoint).position ∧
  s.peak_velocity = maxVelOf s.gaze_points

end Analyzer

/-- An integer pixel position as a point of the Euclidean plane, used to
derive the triangle inequality for `calcDistance`. -/
noncomputable def toVec (p : ℤ × ℤ) : EuclideanSpace ℝ (Fin 2) :=
  ![(p.1 : ℝ), (p.2 : ℝ)]

/-!
Theorems.  First general lemmas about the embedding, then one theorem per
claim (with witnesses and counterexamples where required).
-/

/-- The squared distance is nonnegative. -/
theorem dist2_nonneg (p q : ℤ × ℤ) : 0 ≤ dist2 p q := by
  have h1 : 0 ≤ (q.1 - p.1) * (q.1 - p.1) := mul_self_nonneg _
  have h2 : 0 ≤ (q.2 - p.2) * (q.2 - p.2) := mul_self_nonneg _
  unfold dist2
  omega

/-- Faithfulness of the decidable dispersion test: it holds exactly when
the real square root computed by the source exceeds the threshold. -/
theorem distExceeds_iff_sqrt (p q : ℤ × ℤ) (t : ℚ) :
    Analyzer.distExceeds (dist2 p q) t = true ↔ (t : ℝ) < calcDistance p q := by
  have hd : (0 : ℝ) ≤ ((dist2 p q : ℤ) : ℝ) := by exact_mod_cast dist2_nonneg p q
  unfold Analyzer.distExceeds calcDistance
  rcases lt_or_le t 0 with ht | ht
  · have hs : (0 : ℝ) ≤ Real.sqrt ((dist2 p q : ℤ) : ℝ) := Real.sqrt_nonneg _
    have ht' : ((t : ℝ)) < 0 := by exact_mod_cast ht
    simp [ht, lt_of_lt_of_le ht' hs]
  · have ht' : (0 : ℝ) ≤ (t : ℝ) := by exact_mod_cast ht
    have hiff : ((t : ℝ)) < Real.sqrt ((dist2 p q : ℤ) : ℝ) ↔
        ((t : ℝ)) ^ 2 < ((dist2 p q : ℤ) : ℝ) := Real.lt_sqrt ht'
    have hcast : (((t * t : ℚ)) : ℝ) = ((t : ℝ)) ^ 2 := by push_cast; ring
    constructor
    · intro hb
      simp only [Bool.or_eq_true, decide_eq_true_eq] at hb
      rcases hb with hb | hb
      · exact absurd hb (not_lt.mpr ht)
      · refine hiff.mpr ?_
        rw [← hcast]
        exact_mod_cast hb
    · intro hb
      have h2 : ((t : ℝ)) ^ 2 < ((dist2 p q : ℤ) : ℝ) := hiff.mp hb
      rw [← hcast] at h2
      simp only [Bool.or_eq_true, decide_eq_true_eq]
      right
      exact_mod_cast h2

/-- Counting form of the per-point heatmap pass, for an arbitrary starting
map. -/
theorem foldl_bump_count (pts : List Analyzer.GazePoint) :
    ∀ (h : Analyzer.HeatMap) (b : ℤ × ℤ),
      (pts.foldl (fun h p => Analyzer.bump h (Analyzer.quantize p.position) 1) h) b
        = h b + pts.countP (fun p => decide (Analyzer.quantize p.position = b)) := by
  induction pts with
  | nil => intro h b; simp
  | cons p rest ih =>
    intro h b
    simp only [List.foldl_cons, List.countP_cons, ih]
    unfold Analyzer.bump
    by_cases hb : Analyzer.quantize p.position = b
    · simp [hb]; omega
    · have hb' : ¬ b = Analyzer.quantize p.position := fun hh => hb hh.symm
      simp [hb, hb']

/-- C1 (counterexample).  On three identical points at the origin the
analyzer emits one fixation whose centroid falls in bucket (0, 0); the
claim predicts a final count of 3 raw points + 5 · 1 fixation = 8 there,
but the per-point pass clears the heatmap first and the final count is
3. -/
theorem claim1_counterexample :
    ((Analyzer.analyze Analyzer.defaultParams c1pts).fixations.map
        fun f => Analyzer.quantize f.center_position) = [(0, 0)] ∧
    c1pts.countP (fun p => decide (Analyzer.quantize p.position = (0, 0))) = 3 ∧
    (Analyzer.analyze Analyzer.defaultParams c1pts).heatmap (0, 0) = 3 ∧
    ¬ ((Analyzer.analyze Analyzer.defaultParams c1pts).heatmap (0, 0) = 3 + 5 * 1) := by
  norm_num [Analyzer.analyze, Analyzer.detectEvents, Analyzer.stepPoint,
    Analyzer.flushSegment, Analyzer.createFixation, Analyzer.addSaccade,
    Analyzer.createSaccade, Analyzer.calculateCentroid, Analyzer.distExceeds,
    dist2, Analyzer.quantize, Analyzer.bump, c1pts, Analyzer.defaultParams,
    ratTrunc, Analyzer.initialDState, Analyzer.generateHeatmap, Int.tdiv, Int.fdiv]

/-- C1 (amended).  After the analyzer runs, every bucket of the coarse
counting heatmap holds exactly the number of raw points quantized to it:
the +5 fixation contributions written during segmentation are discarded
because the per-point pass clears the map before counting. -/
theorem claim1_amended_heatmap_counts (P : Analyzer.Params)
    (pts : List Analyzer.GazePoint) (b : ℤ × ℤ) :
    (Analyzer.analyze P pts).heatmap b
      = pts.countP (fun p => decide (Analyzer.quantize p.position = b)) := by
  show (Analyzer.generateHeatmap pts) b = _
  unfold Analyzer.generateHeatmap
  rw [foldl_bump_count]
  simp

/-- C2 (counterexample).  In a recording state with a visible display
position, a sample whose left-eye x coordinate is 2 (outside [0, 1]) with
both eyes present produces no point but leaves the display position
untouched instead of clearing it. -/
theorem claim2_counterexample :
    (Processor.processGazeData demoState
        ((some (2, 1 / 2), some (1 / 2, 1 / 2)) : Processor.Sample) 2) = demoState ∧
    (Processor.processGazeData demoState
        ((some (2, 1 / 2), some (1 / 2, 1 / 2)) : Processor.Sample) 2).current_gaze
      = some (10, 10) ∧
    ¬ ((Processor.processGazeData demoState
        ((some (2, 1 / 2), some (1 / 2, 1 / 2)) : Processor.Sample) 2).current_gaze = none) := by
  have h : (Processor.processGazeData demoState
      ((some (2, 1 / 2), some (1 / 2, 1 / 2)) : Processor.Sample) 2) = demoState := by
    norm_num [Processor.processGazeData, Processor.coordsOk, demoState]
  refine ⟨h, ?_, ?_⟩
  · rw [h]; rfl
  · rw [h]; simp [demoState]

/-- C2 (amended).  While recording, an invalid sample produces no GazePoint
in either failure mode, but the display position is cleared only when an
eye is missing; when both eyes are present and a coordinate is out of
range, the state (including `current_gaze`) is completely unchanged. -/
theorem claim2_amended_invalid_sample (s : Processor.State)
    (l r : Option (ℚ × ℚ)) (t : ℚ) (hrec : s.is_recording = true) :
    ((l = none ∨ r = none) →
      Processor.processGazeData s (l, r) t = { s with current_gaze := none }) ∧
    (∀ le re, l = some le → r = some re → Processor.coordsOk le re = false →
      Processor.processGazeData s (l, r) t = s) := by
  constructor
  · rintro (rfl | rfl)
    · simp [Processor.processGazeData, hrec]
    · cases l <;> simp [Processor.processGazeData, hrec]
  · rintro le re rfl rfl hbad
    simp [Processor.processGazeData, hrec, hbad]

/-- Witness for C2 (amended) at the demo state: a missing right eye clears
the display position; an out-of-range left eye leaves the state
unchanged. -/
theorem claim2_witness :
    (Processor.processGazeData demoState
        ((some ((1 : ℚ) / 2, 1 / 2), none) : Processor.Sample) 2
      = { demoState with current_gaze := none }) ∧
    (Processor.processGazeData demoState
        ((some (2, 1 / 2), some ((1 : ℚ) / 2, 1 / 2)) : Processor.Sample) 2 = demoState) := by
  constructor
  · exact (claim2_amended_invalid_sample demoState (some ((1 : ℚ) / 2, 1 / 2)) none 2 rfl).1
      (Or.inr rfl)
  · exact (claim2_amended_invalid_sample demoState (some (2, 1 / 2))
      (some ((1 : ℚ) / 2, 1 / 2)) 2 rfl).2 (2, 1 / 2) ((1 : ℚ) / 2, 1 / 2) rfl rfl
      (by norm_num [Processor.coordsOk])

/-- C9.  Resetting any reachable processor state yields exactly the state
of a freshly constructed processor with the same screen dimensions. -/
theorem claim9_reset (s : Processor.State) (h : Processor.Reachable s) :
    Processor.reset s = Processor.init s.width s.height := by
  cases s
  rfl

/-- Witness for C9 at the freshly constructed 800 × 600 processor. -/
theorem claim9_witness :
    Processor.reset (Processor.init 800 600) = Processor.init 800 600 :=
  claim9_reset (Processor.init 800 600) (Processor.Reachable.init 800 600)

/-- C10.  While recording, a rejected sample leaves the raw point list, the
smoothed position, the trail and the timing state unchanged in both
processor variants; with both eyes present but an out-of-range coordinate
the whole state (including `current_gaze`) is unchanged, and `current_gaze`
is cleared exactly in the missing-eye case. -/
theorem claim10_rejected_sample_frame (s : Processor.State)
    (l r : Option (ℚ × ℚ)) (t : ℚ) (hrec : s.is_recording = true) :
    (∀ le re, l = some le → r = some re → Processor.coordsOk le re = false →
      Processor.processGazeData s (l, r) t = s ∧
      Processor.processGazeDataIT s (l, r) t = s) ∧
    ((l = none ∨ r = none) →
      ((Processor.processGazeData s (l, r) t).raw_gaze_points = s.raw_gaze_points ∧
       (Processor.processGazeData s (l, r) t).smoothed_gaze = s.smoothed_gaze ∧
       (Processor.processGazeData s (l, r) t).gaze_history = s.gaze_history ∧
       (Processor.processGazeData s (l, r) t).last_gaze_time = s.last_gaze_time ∧
       (Processor.processGazeData s (l, r) t).current_gaze = none) ∧
      ((Processor.processGazeDataIT s (l, r) t).raw_gaze_points = s.raw_gaze_points ∧
       (Processor.processGazeDataIT s (l, r) t).smoothed_gaze = s.smoothed_gaze ∧
       (Processor.processGazeDataIT s (l, r) t).gaze_history = s.gaze_history ∧
       (Processor.processGazeDataIT s (l, r) t).last_gaze_time = s.last_gaze_time ∧
       (Processor.processGazeDataIT s (l, r) t).current_gaze = none)) := by
  constructor
  · rintro le re rfl rfl hbad
    constructor
    · simp [Processor.processGazeData, hrec, hbad]
    · simp [Processor.processGazeDataIT, hrec, hbad]
  · rintro (rfl | rfl)
    · constructor
      · simp [Processor.processGazeData, hrec]
      · simp [Processor.processGazeDataIT, hrec]
    · cases l
      · constructor
        · simp [Processor.processGazeData, hrec]
        · simp [Processor.processGazeDataIT, hrec]
      · constructor
        · simp [Processor.processGazeData, hrec]
        · simp [Processor.processGazeDataIT, hrec]

/-- Witness for C10 at the demo state: an out-of-range left eye and a
missing right eye. -/
theorem claim10_witness :
    (Processor.processGazeData demoState
        ((some (2, 1 / 2), some ((1 : ℚ) / 2, 1 / 2)) : Processor.Sample) 2 = demoState ∧
     Processor.processGazeDataIT demoState
        ((some (2, 1 / 2), some ((1 : ℚ) / 2, 1 / 2)) : Processor.Sample) 2 = demoState) ∧
    (Processor.processGazeData demoState
        ((some ((1 : ℚ) / 2, 1 / 2), none) : Processor.Sample) 2).current_gaze = none := by
  constructor
  · exact (claim10_rejected_sample_frame demoState (some (2, 1 / 2))
      (some ((1 : ℚ) / 2, 1 / 2)) 2 rfl).1 (2, 1 / 2) ((1 : ℚ) / 2, 1 / 2) rfl rfl
      (by norm_num [Processor.coordsOk])
  · exact (((claim10_rejected_sample_frame demoState (some ((1 : ℚ) / 2, 1 / 2)) none 2
      rfl).2 (Or.inr rfl)).1).2.2.2.2

/-- C8.  An accepted sample appends exactly one point: with no previous
point its stored velocity is 0; with a previous point and a set
`last_gaze_time`, the stored velocity is the Euclidean pixel distance to
the previous position divided by the time delta when the delta is
positive, and 0 when the delta is not positive. -/
theorem claim8_velocity (s : Processor.State) (le re : ℚ × ℚ) (t : ℚ)
    (hrec : s.is_recording = true) (hok : Processor.coordsOk le re = true) :
    (s.raw_gaze_points = [] →
      (Processor.processGazeData s (some le, some re) t).raw_gaze_points
        = s.raw_gaze_points
            ++ [⟨t, Processor.pixelPos s.width s.height le re, 0⟩]) ∧
    (∀ t0 prev, s.last_gaze_time = some t0 → s.raw_gaze_points.getLast? = some prev →
      ((0 < t - t0 →
        (Processor.processGazeData s (some le, some re) t).raw_gaze_points
          = s.raw_gaze_points
              ++ [⟨t, Processor.pixelPos s.width s.height le re,
                    calcDistance prev.position (Processor.pixelPos s.width s.height le re)
                      / ((t - t0 : ℚ) : ℝ)⟩]) ∧
       (t - t0 ≤ 0 →
        (Processor.processGazeData s (some le, some re) t).raw_gaze_points
          = s.raw_gaze_points
              ++ [⟨t, Processor.pixelPos s.width s.height le re, 0⟩]))) := by
  constructor
  · intro hraw
    have hlast : s.raw_gaze_points.getLast? = none := by simp [hraw]
    cases hlt : s.last_gaze_time <;>
      simp [Processor.processGazeData, hrec, hok, hlt, hlast]
  · intro t0 prev ht0 hprev
    constructor
    · intro hdt
      have hdt' : ¬ (t - t0 ≤ 0) := not_le.mpr hdt
      simp [Processor.processGazeData, hrec, hok, ht0, hprev,
        Processor.calculate_velocity, hdt']
    · intro hdt
      simp [Processor.processGazeData, hrec, hok, ht0, hprev,
        Processor.calculate_velocity, hdt]

/-- Witness for C8 at the demo state: a centered sample on the 800 × 600
screen arriving one second after the stored point. -/
theorem claim8_witness :
    (Processor.processGazeData demoState
        ((some ((1 : ℚ) / 2, 1 / 2), some ((1 : ℚ) / 2, 1 / 2)) : Processor.Sample)
        2).raw_gaze_points
      = demoState.raw_gaze_points
          ++ [⟨2, Processor.pixelPos demoState.width demoState.height
                    ((1 : ℚ) / 2, 1 / 2) ((1 : ℚ) / 2, 1 / 2),
                calcDistance (10, 10)
                    (Processor.pixelPos demoState.width demoState.height
                      ((1 : ℚ) / 2, 1 / 2) ((1 : ℚ) / 2, 1 / 2))
                  / (((2 : ℚ) - 1 : ℚ) : ℝ)⟩] :=
  ((claim8_velocity demoState ((1 : ℚ) / 2, 1 / 2) ((1 : ℚ) / 2, 1 / 2) 2 rfl
      (by norm_num [Processor.coordsOk])).2 1 ⟨1, (10, 10), 0⟩ rfl rfl).1 (by norm_num)

/-- The seed is a lower bound of the running maximum. -/
theorem le_listMaxQ (x : ℚ) (xs : List ℚ) : x ≤ Analyzer.listMaxQ x xs := by
  induction xs generalizing x with
  | nil => exact le_refl x
  | cons y ys ih =>
    calc x ≤ max x y := le_max_left x y
    _ ≤ Analyzer.listMaxQ (max x y) ys := ih (max x y)

/-- Every listed element is a lower bound of the running maximum. -/
theorem elem_le_listMaxQ (x : ℚ) (xs : List ℚ) :
    ∀ y ∈ xs, y ≤ Analyzer.listMaxQ x xs := by
  induction xs generalizing x with
  | nil => intro y hy; cases hy
  | cons z zs ih =>
    intro y hy
    rcases List.mem_cons.mp hy with rfl | hy
    · calc y ≤ max x y := le_max_right x y
      _ ≤ Analyzer.listMaxQ (max x y) zs := le_listMaxQ _ zs
    · exact ih (max x z) y hy

/-- The running maximum is the seed or a listed element. -/
theorem listMaxQ_mem (x : ℚ) (xs : List ℚ) :
    Analyzer.listMaxQ x xs = x ∨ Analyzer.listMaxQ x xs ∈ xs := by
  induction xs generalizing x with
  | nil => exact Or.inl rfl
  | cons y ys ih =>
    rcases ih (max x y) with h | h
    · rcases max_choice x y with hm | hm
      · exact Or.inl (by rw [show Analyzer.listMaxQ x (y :: ys) = Analyzer.listMaxQ (max x y) ys from rfl, h, hm])
      · refine Or.inr (List.mem_cons.mpr (Or.inl ?_))
        rw [show Analyzer.listMaxQ x (y :: ys) = Analyzer.listMaxQ (max x y) ys from rfl, h, hm]
    · exact Or.inr (List.mem_cons.mpr (Or.inr h))

/-- Every emitted fixation candidate satisfies the fixation invariant,
provided the candidate segment has at least two points. -/
theorem createFixation_inv (durThr : ℚ) (pts : List Analyzer.GazePoint)
    (fx : List Analyzer.Fixation) (h : Analyzer.HeatMap)
    (hlen : 2 ≤ pts.length)
    (hfx : ∀ f ∈ fx, Analyzer.FixInv durThr f) :
    ∀ f ∈ (Analyzer.createFixation durThr pts fx h).1, Analyzer.FixInv durThr f := by
  cases pts with
  | nil => simp at hlen
  | cons p ps =>
    intro f hf
    simp only [Analyzer.createFixation] at hf
    by_cases hdur :
        durThr ≤ ((p :: ps).getLastD Analyzer.dfltPoint).timestamp - p.timestamp
    · rw [if_pos hdur] at hf
      rcases List.mem_append.mp hf with hf | hf
      · exact hfx f hf
      · rcases List.mem_singleton.mp hf with rfl
        exact ⟨rfl, hdur, rfl, by simpa using hlen⟩
    · rw [if_neg hdur] at hf
      exact hfx f hf

/-- Every saccade produced by `createSaccade` satisfies the saccade
invariant. -/
theorem createSaccade_SaccInv (pts : List Analyzer.GazePoint) (s : Analyzer.Saccade)
    (hs : Analyzer.createSaccade pts = some s) : Analyzer.SaccInv s := by
  cases pts with
  | nil => simp [Analyzer.createSaccade] at hs
  | cons p0 rest =>
    cases rest with
    | nil => simp [Analyzer.createSaccade] at hs
    | cons p1 rest2 =>
      simp only [Analyzer.createSaccade, Option.some.injEq] at hs
      subst hs
      exact ⟨by simp, rfl, rfl, rfl⟩

/-- `addSaccade` preserves the saccade invariant. -/
theorem addSaccade_inv (sc : List Analyzer.Saccade) (pts : List Analyzer.GazePoint)
    (hsc : ∀ x ∈ sc, Analyzer.SaccInv x) :
    ∀ x ∈ Analyzer.addSaccade sc pts, Analyzer.SaccInv x := by
  intro x hx
  cases hcs : Analyzer.createSaccade pts with
  | none => simp only [Analyzer.addSaccade, hcs] at hx; exact hsc x hx
  | some s =>
    simp only [Analyzer.addSaccade, hcs] at hx
    rcases List.mem_append.mp hx with hx | hx
    · exact hsc x hx
    · rcases List.mem_singleton.mp hx with rfl
      exact createSaccade_SaccInv pts x hcs

/-- One scan step preserves both event invariants. -/
theorem stepPoint_inv (P : Analyzer.Params) (st : Analyzer.DState)
    (p : Analyzer.GazePoint)
    (hfx : ∀ f ∈ st.fixations, Analyzer.FixInv P.fixation_duration_threshold f)
    (hsc : ∀ x ∈ st.saccades, Analyzer.SaccInv x) :
    (∀ f ∈ (Analyzer.stepPoint P st p).fixations,
        Analyzer.FixInv P.fixation_duration_threshold f) ∧
    (∀ x ∈ (Analyzer.stepPoint P st p).saccades, Analyzer.SaccInv x) := by
  simp only [Analyzer.stepPoint]
  split_ifs with h1 h2 h3 h4 h5 h6 <;>
    refine ⟨?_, ?_⟩ <;>
    simp only [] <;>
    first
      | exact hfx
      | exact hsc
      | (exact createFixation_inv _ _ _ _ (by omega) hfx)
      | (exact addSaccade_inv _ _ hsc)
      | (intro f hf
         first
           | exact hfx f hf
           | exact hsc f hf
           | exact createFixation_inv _ _ _ _ (by omega) hfx f hf
           | exact addSaccade_inv _ _ hsc f hf
           | (rw [List.dropLast_concat] at hf
              exact createFixation_inv _ _ _ _ (by
                have h7 : ([p] : List Analyzer.GazePoint).length = 1 := rfl
                have h8 := List.length_append st.segment [p]
                omega) hfx f hf))

/-- The whole scan preserves both event invariants. -/
theorem foldl_step_inv (P : Analyzer.Params) (pts : List Analyzer.GazePoint) :
    ∀ st : Analyzer.DState,
      (∀ f ∈ st.fixations, Analyzer.FixInv P.fixation_duration_threshold f) →
      (∀ x ∈ st.saccades, Analyzer.SaccInv x) →
      (∀ f ∈ (pts.foldl (Analyzer.stepPoint P) st).fixations,
          Analyzer.FixInv P.fixation_duration_threshold f) ∧
      (∀ x ∈ (pts.foldl (Analyzer.stepPoint P) st).saccades, Analyzer.SaccInv x) := by
  induction pts with
  | nil => intro st hfx hsc; exact ⟨hfx, hsc⟩
  | cons p rest ih =>
    intro st hfx hsc
    have h := stepPoint_inv P st p hfx hsc
    exact ih (Analyzer.stepPoint P st p) h.1 h.2

/-- The final flush preserves both event invariants. -/
theorem flushSegment_inv (P : Analyzer.Params) (st : Analyzer.DState)
    (hfx : ∀ f ∈ st.fixations, Analyzer.FixInv P.fixation_duration_threshold f)
    (hsc : ∀ x ∈ st.saccades, Analyzer.SaccInv x) :
    (∀ f ∈ (Analyzer.flushSegment P st).fixations,
        Analyzer.FixInv P.fixation_duration_threshold f) ∧
    (∀ x ∈ (Analyzer.flushSegment P st).saccades, Analyzer.SaccInv x) := by
  simp only [Analyzer.flushSegment]
  split_ifs with h1 h2 <;>
    refine ⟨?_, ?_⟩ <;>
    first
      | exact hfx
      | exact hsc
      | exact createFixation_inv _ _ _ _ (by omega) hfx
      | exact addSaccade_inv _ _ hsc

/-- Both event invariants hold for the full event-detection pass. -/
theorem detectEvents_inv (P : Analyzer.Params) (pts : List Analyzer.GazePoint) :
    (∀ f ∈ (Analyzer.detectEvents P pts).fixations,
        Analyzer.FixInv P.fixation_duration_threshold f) ∧
    (∀ x ∈ (Analyzer.detectEvents P pts).saccades, Analyzer.SaccInv x) := by
  have h0fx : ∀ f ∈ Analyzer.initialDState.fixations,
      Analyzer.FixInv P.fixation_duration_threshold f := by
    intro f hf; simp [Analyzer.initialDState] at hf
  have h0sc : ∀ x ∈ Analyzer.initialDState.saccades, Analyzer.SaccInv x := by
    intro x hx; simp [Analyzer.initialDState] at hx
  cases pts with
  | nil => exact ⟨h0fx, h0sc⟩
  | cons p rest =>
    have h := foldl_step_inv P (p :: rest) Analyzer.initialDState h0fx h0sc
    exact flushSegment_inv P _ h.1 h.2

/-- C4 (counterexample).  On `c4pts` the dispersion split emits a fixation
containing only two gaze points, contradicting the claimed three-point
minimum. -/
theorem claim4_counterexample :
    ((Analyzer.analyze Analyzer.defaultParams c4pts).fixations.map
        fun f => f.gaze_points.length) = [2] ∧
    ¬ (∀ f ∈ (Analyzer.analyze Analyzer.defaultParams c4pts).fixations,
        3 ≤ f.gaze_points.length) := by
  have hfix : (Analyzer.analyze Analyzer.defaultParams c4pts).fixations = [c4fix] := by
    norm_num [Analyzer.analyze, Analyzer.detectEvents, Analyzer.stepPoint,
      Analyzer.flushSegment, Analyzer.createFixation, Analyzer.addSaccade,
      Analyzer.createSaccade, Analyzer.calculateCentroid, Analyzer.distExceeds,
      dist2, Analyzer.quantize, Analyzer.bump, c4pts, c4fix, Analyzer.defaultParams,
      ratTrunc, Analyzer.initialDState, Int.tdiv, Int.fdiv]
  constructor
  · rw [hfix]; rfl
  · intro hall
    have h2 := hall c4fix (by rw [hfix]; exact List.mem_singleton.mpr rfl)
    simp [c4fix] at h2

/-- C4 (amended).  Every fixation the analyzer emits has a duration equal
to its time span and at least the duration threshold, a center equal to
the truncated integer centroid of its points, and at least two points (the
dispersion split can leave exactly two; all other emission paths give at
least three). -/
theorem claim4_fixation_invariants (P : Analyzer.Params)
    (pts : List Analyzer.GazePoint) (f : Analyzer.Fixation)
    (hf : f ∈ (Analyzer.analyze P pts).fixations) :
    f.duration = f.end_time - f.start_time ∧
    P.fixation_duration_threshold ≤ f.duration ∧
    f.center_position
      = Analyzer.calculateCentroid (f.gaze_points.map Analyzer.GazePoint.position) ∧
    2 ≤ f.gaze_points.length :=
  (detectEvents_inv P pts).1 f hf

/-- Witness for C4 (amended) at the two-point fixation emitted on
`c4pts`. -/
theorem claim4_witness :
    c4fix.duration = c4fix.end_time - c4fix.start_time ∧
    Analyzer.defaultParams.fixation_duration_threshold ≤ c4fix.duration ∧
    c4fix.center_position
      = Analyzer.calculateCentroid (c4fix.gaze_points.map Analyzer.GazePoint.position) ∧
    2 ≤ c4fix.gaze_points.length :=
  claim4_fixation_invariants Analyzer.defaultParams c4pts c4fix (by
    norm_num [Analyzer.analyze, Analyzer.detectEvents, Analyzer.stepPoint,
      Analyzer.flushSegment, Analyzer.createFixation, Analyzer.addSaccade,
      Analyzer.createSaccade, Analyzer.calculateCentroid, Analyzer.distExceeds,
      dist2, Analyzer.quantize, Analyzer.bump, c4pts, c4fix, Analyzer.defaultParams,
      ratTrunc, Analyzer.initialDState, Int.tdiv, Int.fdiv])

/-- The source distance is the metric distance of the Euclidean plane. -/
theorem calcDistance_eq_dist (p q : ℤ × ℤ) :
    calcDistance p q = dist (toVec p) (toVec q) := by
  rw [EuclideanSpace.dist_eq, Fin.sum_univ_two]
  unfold toVec calcDistance dist2
  simp only [Matrix.cons_val_zero, Matrix.cons_val_one, Matrix.head_cons, Real.dist_eq]
  congr 1
  push_cast
  rw [sq_abs, sq_abs]
  ring

/-- Triangle inequality for the source distance. -/
theorem calcDistance_triangle (a b c : ℤ × ℤ) :
    calcDistance a c ≤ calcDistance a b + calcDistance b c := by
  rw [calcDistance_eq_dist, calcDistance_eq_dist, calcDistance_eq_dist]
  exact dist_triangle _ _ _

/-- The distance from a point to itself is 0. -/
theorem calcDistance_self (a : ℤ × ℤ) : calcDistance a a = 0 := by
  rw [calcDistance_eq_dist]
  exact dist_self _

/-- A one-point path has length 0. -/
theorem calcPathLength_single (a : ℤ × ℤ) : Analyzer.calcPathLength [a] = 0 := by
  norm_num [Analyzer.calcPathLength]

/-- Recurrence of the path length over the leading pair. -/
theorem calcPathLength_cons₂ (a b : ℤ × ℤ) (m : List (ℤ × ℤ)) :
    Analyzer.calcPathLength (a :: b :: m) = calcDistance a b + Analyzer.calcPathLength (b :: m) := by
  cases m with
  | nil => norm_num [Analyzer.calcPathLength]
  | cons c m2 =>
    unfold Analyzer.calcPathLength
    rw [if_neg (by simp), if_neg (by simp)]
    rw [List.dropLast_cons₂, List.tail_cons]
    rw [show (a :: (b :: c :: m2).dropLast).zip (b :: c :: m2)
          = (a, b) :: ((b :: c :: m2).dropLast.zip (b :: c :: m2).tail) from rfl]
    rw [List.map_cons, List.sum_cons]

/-- The chord from the head to the last point never exceeds the path
length. -/
theorem chord_le_pathLength (l : List (ℤ × ℤ)) :
    ∀ a : ℤ × ℤ, calcDistance a (l.getLastD a) ≤ Analyzer.calcPathLength (a :: l) := by
  induction l with
  | nil =>
    intro a
    rw [List.getLastD_nil, calcDistance_self, calcPathLength_single]
  | cons b m ih =>
    intro a
    rw [List.getLastD_cons, calcPathLength_cons₂]
    calc calcDistance a (m.getLastD b)
        ≤ calcDistance a b + calcDistance b (m.getLastD b) := calcDistance_triangle a b _
      _ ≤ calcDistance a b + Analyzer.calcPathLength (b :: m) :=
          add_le_add_left (ih b) _

/-- The last position of the mapped position list is the position of the
last point. -/
theorem getLastD_map_position (q : Analyzer.GazePoint) (qs : List Analyzer.GazePoint) :
    (qs.map Analyzer.GazePoint.position).getLastD q.position
      = ((q :: qs).getLastD Analyzer.dfltPoint).position := by
  induction qs generalizing q with
  | nil => rfl
  | cons r rs ih =>
    rw [List.map_cons, List.getLastD_cons, List.getLastD_cons, ih r, List.getLastD_cons,
      List.getLastD_cons]

/-- C6.  Every saccade the analyzer emits travels at least its amplitude
(the path is at least the chord), has a peak velocity that is the maximum
of the velocities of its points, and contains at least two points. -/
theorem claim6_saccade_invariants (P : Analyzer.Params)
    (pts : List Analyzer.GazePoint) (s : Analyzer.Saccade)
    (hs : s ∈ (Analyzer.analyze P pts).saccades) :
    s.amplitude ≤ s.distance_traveled ∧
    s.peak_velocity ∈ s.gaze_points.map Analyzer.GazePoint.velocity ∧
    (∀ v ∈ s.gaze_points.map Analyzer.GazePoint.velocity, v ≤ s.peak_velocity) ∧
    2 ≤ s.gaze_points.length := by
  obtain ⟨hlen, hstart, hend, hpeak⟩ := (detectEvents_inv P pts).2 s hs
  cases hgp : s.gaze_points with
  | nil => rw [hgp] at hlen; simp at hlen
  | cons q qs =>
    rw [hgp] at hstart hend hpeak
    refine ⟨?_, ?_, ?_, ?_⟩
    · show calcDistance s.start_position s.end_position
        ≤ Analyzer.calcPathLength (s.gaze_points.map Analyzer.GazePoint.position)
      rw [hgp, hstart, hend, List.map_cons, ← getLastD_map_position]
      simp only [List.headD_cons]
      exact chord_le_pathLength _ _
    · rw [hpeak, List.map_cons]
      show Analyzer.listMaxQ q.velocity (qs.map Analyzer.GazePoint.velocity) ∈ _
      rcases listMaxQ_mem q.velocity (qs.map Analyzer.GazePoint.velocity) with h | h
      · rw [h]; exact List.mem_cons_self _ _
      · exact List.mem_cons_of_mem _ h
    · rw [hpeak, List.map_cons]
      intro v hv
      rcases List.mem_cons.mp hv with rfl | hv
      · exact le_listMaxQ _ _
      · exact elem_le_listMaxQ _ _ v hv
    · rw [hgp] at hlen; exact hlen

/-- Witness for C6 at the two-point saccade emitted on `c6pts`. -/
theorem claim6_witness :
    c6sac.amplitude ≤ c6sac.distance_traveled ∧
    c6sac.peak_velocity ∈ c6sac.gaze_points.map Analyzer.GazePoint.velocity ∧
    (∀ v ∈ c6sac.gaze_points.map Analyzer.GazePoint.velocity, v ≤ c6sac.peak_velocity) ∧
    2 ≤ c6sac.gaze_points.length :=
  claim6_saccade_invariants Analyzer.defaultParams c6pts c6sac (by
    norm_num [Analyzer.analyze, Analyzer.detectEvents, Analyzer.stepPoint,
      Analyzer.flushSegment, Analyzer.createFixation, Analyzer.addSaccade,
      Analyzer.createSaccade, Analyzer.calculateCentroid, Analyzer.distExceeds,
      dist2, Analyzer.quantize, Analyzer.bump, c6pts, c6sac, Analyzer.defaultParams,
      ratTrunc, Analyzer.initialDState, Analyzer.segLoop, Analyzer.segLoopAux,
      Analyzer.pairBin, Analyzer.whichBin, Analyzer.mkSegment, Analyzer.pySlice,
      Analyzer.minVelOf, Analyzer.maxVelOf, Analyzer.listMinQ, Analyzer.listMaxQ,
      Int.tdiv, Int.fdiv])

/-- A candidate emission changes the fixation list exactly when the
segment meets the duration threshold. -/
theorem createFixation_ne_iff (durThr : ℚ) (pts : List Analyzer.GazePoint)
    (fx : List Analyzer.Fixation) (h : Analyzer.HeatMap) (hne : pts ≠ []) :
    (Analyzer.createFixation durThr pts fx h).1 ≠ fx ↔
      durThr ≤ Analyzer.segDuration pts := by
  cases pts with
  | nil => exact absurd rfl hne
  | cons q qs =>
    simp only [Analyzer.createFixation, Analyzer.segDuration]
    by_cases hd : durThr ≤ ((q :: qs).getLastD Analyzer.dfltPoint).timestamp - q.timestamp
    · rw [if_pos hd]
      simp only [hd, iff_true]
      intro heq
      have hlen := congrArg List.length heq
      simp at hlen
    · rw [if_neg hd]
      constructor
      · intro habs; exact absurd rfl habs
      · intro hds; exact absurd hds hd

/-- C3 (counterexample).  On `c3pts` the dispersion-triggered split emits
the fixation even though only two points remain after dropping the last
one: the claimed three-point emission condition does not hold. -/
theorem claim3_counterexample :
    ((Analyzer.analyze Analyzer.defaultParams c3pts).fixations.map
        fun f => f.gaze_points)
      = [[⟨0, (0, 0), 0⟩, ⟨1 / 5, (0, 0), 0⟩]] ∧
    ¬ (∀ f ∈ (Analyzer.analyze Analyzer.defaultParams c3pts).fixations,
        3 ≤ f.gaze_points.length) := by
  have hfix : (Analyzer.analyze Analyzer.defaultParams c3pts).fixations
      = [⟨0, 1 / 5, 0, 1 / 5, (0, 0), 1 / 5, [⟨0, (0, 0), 0⟩, ⟨1 / 5, (0, 0), 0⟩]⟩] := by
    norm_num [Analyzer.analyze, Analyzer.detectEvents, Analyzer.stepPoint,
      Analyzer.flushSegment, Analyzer.createFixation, Analyzer.addSaccade,
      Analyzer.createSaccade, Analyzer.calculateCentroid, Analyzer.distExceeds,
      dist2, Analyzer.quantize, Analyzer.bump, c3pts, Analyzer.defaultParams,
      ratTrunc, Analyzer.initialDState, Int.tdiv, Int.fdiv]
  constructor
  · rw [hfix]; rfl
  · intro hall
    have h2 := hall _ (by rw [hfix]; exact List.mem_singleton.mpr rfl)
    simp at h2

/-- C3 (amended).  When a fixational point brings the open fixation
segment to at least three points and lies beyond the dispersion threshold
from the centroid of the whole segment, the scan closes the fixation over
all points except the last one, emits it exactly when that shortened
segment (which may hold only two points) meets the duration threshold, and
restarts the segment with exactly the outlier point. -/
theorem claim3_dispersion_split (P : Analyzer.Params) (st : Analyzer.DState)
    (p : Analyzer.GazePoint)
    (h1 : st.inFixation = true)
    (h2 : ¬ P.saccade_velocity_threshold < p.velocity)
    (h3 : 3 ≤ st.segment.length + 1)
    (h4 : Analyzer.distExceeds
        (dist2 p.position
          (Analyzer.calculateCentroid
            ((st.segment ++ [p]).map Analyzer.GazePoint.position)))
        P.fixation_threshold = true) :
    (Analyzer.stepPoint P st p).segment = [p] ∧
    (Analyzer.stepPoint P st p).saccades = st.saccades ∧
    (Analyzer.stepPoint P st p).inFixation = true ∧
    ((Analyzer.stepPoint P st p).fixations, (Analyzer.stepPoint P st p).heat)
      = Analyzer.createFixation P.fixation_duration_threshold
          (st.segment ++ [p]).dropLast st.fixations st.heat ∧
    2 ≤ (st.segment ++ [p]).dropLast.length ∧
    ((Analyzer.stepPoint P st p).fixations ≠ st.fixations ↔
      P.fixation_duration_threshold
        ≤ Analyzer.segDuration ((st.segment ++ [p]).dropLast)) := by
  have hlen : (st.segment ++ [p]).length = st.segment.length + 1 := by
    simp
  have hlen2 : 2 ≤ (st.segment ++ [p]).dropLast.length := by
    rw [List.dropLast_concat]
    omega
  have hstep : Analyzer.stepPoint P st p
      = { st with
            fixations := (Analyzer.createFixation P.fixation_duration_threshold
              (st.segment ++ [p]).dropLast st.fixations st.heat).1
            heat := (Analyzer.createFixation P.fixation_duration_threshold
              (st.segment ++ [p]).dropLast st.fixations st.heat).2
            segment := [p] } := by
    have h3a : 3 ≤ (st.segment ++ [p]).length := by simpa using h3
    have h3b : 2 ≤ st.segment.length := by omega
    have h4a : Analyzer.distExceeds
        (dist2 p.position
          (Analyzer.calculateCentroid
            (List.map Analyzer.GazePoint.position st.segment ++ [p.position])))
        P.fixation_threshold = true := by simpa using h4
    simp [Analyzer.stepPoint, h1, h2, h3, h3a, h3b, h4a]
  refine ⟨by rw [hstep], by rw [hstep], by rw [hstep, h1], by rw [hstep], hlen2, ?_⟩
  rw [hstep]
  exact createFixation_ne_iff _ _ _ _ (by
    intro hnil
    rw [hnil] at hlen2
    simp at hlen2)

/-- Witness for C3 (amended) at the concrete pre-split state `c3st` and
outlier `c3p`. -/
theorem claim3_witness :
    (Analyzer.stepPoint Analyzer.defaultParams c3st c3p).segment = [c3p] ∧
    (Analyzer.stepPoint Analyzer.defaultParams c3st c3p).saccades = c3st.saccades ∧
    (Analyzer.stepPoint Analyzer.defaultParams c3st c3p).inFixation = true ∧
    ((Analyzer.stepPoint Analyzer.defaultParams c3st c3p).fixations,
        (Analyzer.stepPoint Analyzer.defaultParams c3st c3p).heat)
      = Analyzer.createFixation Analyzer.defaultParams.fixation_duration_threshold
          (c3st.segment ++ [c3p]).dropLast c3st.fixations c3st.heat ∧
    2 ≤ (c3st.segment ++ [c3p]).dropLast.length ∧
    ((Analyzer.stepPoint Analyzer.defaultParams c3st c3p).fixations ≠ c3st.fixations ↔
      Analyzer.defaultParams.fixation_duration_threshold
        ≤ Analyzer.segDuration ((c3st.segment ++ [c3p]).dropLast)) :=
  claim3_dispersion_split Analyzer.defaultParams c3st c3p rfl
    (by norm_num [c3p, Analyzer.defaultParams])
    (by norm_num [c3st])
    (by norm_num [c3st, c3p, Analyzer.defaultParams, Analyzer.distExceeds,
      Analyzer.calculateCentroid, dist2, ratTrunc, Int.tdiv])

/-- C7.  `calculate_metrics` yields the empty result exactly when either
event list is empty; otherwise the counts are exact and the fixation
frequency is the count over the scan span, or 0 when the span is not
positive. -/
theorem claim7_metrics (fx : List Analyzer.Fixation) (sc : List Analyzer.Saccade) :
    (Analyzer.calculateMetrics fx sc = none ↔ fx = [] ∨ sc = []) ∧
    (∀ m, Analyzer.calculateMetrics fx sc = some m →
      m.number_of_fixations = fx.length ∧
      m.number_of_saccades = sc.length ∧
      m.total_scan_time
        = (fx.getLastD Analyzer.dfltFixation).end_time
            - (fx.headD Analyzer.dfltFixation).start_time ∧
      m.fixation_frequency
        = (if 0 < m.total_scan_time then (fx.length : ℚ) / m.total_scan_time else 0)) := by
  by_cases he : fx.isEmpty || sc.isEmpty
  · constructor
    · simp only [Analyzer.calculateMetrics, he, if_pos, true_iff]
      rcases Bool.or_eq_true_iff.mp he with h | h
      · exact Or.inl (List.isEmpty_iff.mp h)
      · exact Or.inr (List.isEmpty_iff.mp h)
    · intro m hm
      simp only [Analyzer.calculateMetrics, he] at hm
      cases hm
  · constructor
    · simp only [Analyzer.calculateMetrics, he, if_neg, Bool.false_eq_true]
      constructor
      · intro h; cases h
      · intro h
        rcases h with rfl | rfl <;> simp at he
    · intro m hm
      simp only [Analyzer.calculateMetrics, he, Bool.false_eq_true, if_false] at hm
      cases hm
      exact ⟨rfl, rfl, rfl, rfl⟩

/-- The seed is an upper bound of the running minimum. -/
theorem listMinQ_le (x : ℚ) (xs : List ℚ) : Analyzer.listMinQ x xs ≤ x := by
  induction xs generalizing x with
  | nil => exact le_refl x
  | cons y ys ih =>
    calc Analyzer.listMinQ (min x y) ys ≤ min x y := ih (min x y)
    _ ≤ x := min_le_left x y

/-- Every listed element is an upper bound of the running minimum. -/
theorem listMinQ_le_elem (x : ℚ) (xs : List ℚ) :
    ∀ y ∈ xs, Analyzer.listMinQ x xs ≤ y := by
  induction xs generalizing x with
  | nil => intro y hy; cases hy
  | cons z zs ih =>
    intro y hy
    rcases List.mem_cons.mp hy with rfl | hy
    · calc Analyzer.listMinQ (min x y) zs ≤ min x y := listMinQ_le _ zs
      _ ≤ y := min_le_right x y
    · exact ih (min x z) y hy

/-- The running minimum is the seed or a listed element. -/
theorem listMinQ_mem (x : ℚ) (xs : List ℚ) :
    Analyzer.listMinQ x xs = x ∨ Analyzer.listMinQ x xs ∈ xs := by
  induction xs generalizing x with
  | nil => exact Or.inl rfl
  | cons y ys ih =>
    rcases ih (min x y) with h | h
    · rcases min_choice x y with hm | hm
      · exact Or.inl (by
          rw [show Analyzer.listMinQ x (y :: ys) = Analyzer.listMinQ (min x y) ys from rfl,
            h, hm])
      · refine Or.inr (List.mem_cons.mpr (Or.inl ?_))
        rw [show Analyzer.listMinQ x (y :: ys) = Analyzer.listMinQ (min x y) ys from rfl,
          h, hm]
    · exact Or.inr (List.mem_cons.mpr (Or.inr h))

/-- The minimum velocity bounds every point velocity from below. -/
theorem minVelOf_le_vel (pts : List Analyzer.GazePoint) :
    ∀ q ∈ pts, Analyzer.minVelOf pts ≤ q.velocity := by
  cases pts with
  | nil => intro q hq; cases hq
  | cons p ps =>
    intro q hq
    rcases List.mem_cons.mp hq with rfl | hq
    · exact listMinQ_le _ _
    · exact listMinQ_le_elem _ _ q.velocity (List.mem_map.mpr ⟨q, hq, rfl⟩)

/-- The maximum velocity bounds every point velocity from above. -/
theorem vel_le_maxVelOf (pts : List Analyzer.GazePoint) :
    ∀ q ∈ pts, q.velocity ≤ Analyzer.maxVelOf pts := by
  cases pts with
  | nil => intro q hq; cases hq
  | cons p ps =>
    intro q hq
    rcases List.mem_cons.mp hq with rfl | hq
    · exact le_listMaxQ _ _
    · exact elem_le_listMaxQ _ _ q.velocity (List.mem_map.mpr ⟨q, hq, rfl⟩)

/-- The minimum velocity is attained by some point. -/
theorem minVelOf_attained (pts : List Analyzer.GazePoint) (hne : pts ≠ []) :
    ∃ q ∈ pts, Analyzer.minVelOf pts = q.velocity := by
  cases pts with
  | nil => exact absurd rfl hne
  | cons p ps =>
    rcases listMinQ_mem p.velocity (ps.map Analyzer.GazePoint.velocity) with h | h
    · exact ⟨p, List.mem_cons_self p ps, h⟩
    · rcases List.mem_map.mp h with ⟨q, hq, hv⟩
      exact ⟨q, List.mem_cons_of_mem p hq, hv.symm⟩

/-- The maximum velocity is attained by some point. -/
theorem maxVelOf_attained (pts : List Analyzer.GazePoint) (hne : pts ≠ []) :
    ∃ q ∈ pts, Analyzer.maxVelOf pts = q.velocity := by
  cases pts with
  | nil => exact absurd rfl hne
  | cons p ps =>
    rcases listMaxQ_mem p.velocity (ps.map Analyzer.GazePoint.velocity) with h | h
    · exact ⟨p, List.mem_cons_self p ps, h⟩
    · rcases List.mem_map.mp h with ⟨q, hq, hv⟩
      exact ⟨q, List.mem_cons_of_mem p hq, hv.symm⟩

/-- The source test `min_vel == max_vel` coincides with all point
velocities being equal. -/
theorem minVel_eq_maxVel_iff (pts : List Analyzer.GazePoint) (hne : pts ≠ []) :
    Analyzer.minVelOf pts = Analyzer.maxVelOf pts ↔ Analyzer.velAllEq pts := by
  cases pts with
  | nil => exact absurd rfl hne
  | cons p ps =>
    constructor
    · intro h q hq
      have hql : Analyzer.minVelOf (p :: ps) ≤ q.velocity := minVelOf_le_vel _ q hq
      have hqu : q.velocity ≤ Analyzer.maxVelOf (p :: ps) := vel_le_maxVelOf _ q hq
      have hpl : Analyzer.minVelOf (p :: ps) ≤ p.velocity :=
        minVelOf_le_vel _ p (List.mem_cons_self p ps)
      have hpu : p.velocity ≤ Analyzer.maxVelOf (p :: ps) :=
        vel_le_maxVelOf _ p (List.mem_cons_self p ps)
      have h1 : q.velocity = Analyzer.minVelOf (p :: ps) := le_antisymm (h ▸ hqu) hql
      have h2 : p.velocity = Analyzer.minVelOf (p :: ps) := le_antisymm (h ▸ hpu) hpl
      rw [h1, List.headD_cons, h2]
    · intro hall
      obtain ⟨qmin, hqmin, hmin⟩ := minVelOf_attained (p :: ps) (List.cons_ne_nil p ps)
      obtain ⟨qmax, hqmax, hmax⟩ := maxVelOf_attained (p :: ps) (List.cons_ne_nil p ps)
      have h1 := hall qmin hqmin
      have h2 := hall qmax hqmax
      rw [hmin, hmax, h1, h2]

/-- Witness for C7 on a one-fixation, one-saccade input. -/
theorem claim7_witness :
    (Analyzer.calculateMetrics [c7fix] [c7sac] = none ↔
      ([c7fix] = [] ∨ [c7sac] = [])) ∧
    (c7metrics.number_of_fixations = [c7fix].length ∧
     c7metrics.number_of_saccades = [c7sac].length ∧
     c7metrics.total_scan_time
       = ([c7fix].getLastD Analyzer.dfltFixation).end_time
           - ([c7fix].headD Analyzer.dfltFixation).start_time ∧
     c7metrics.fixation_frequency
       = (if 0 < c7metrics.total_scan_time then
            (([c7fix].length : ℚ)) / c7metrics.total_scan_time else 0)) :=
  ⟨(claim7_metrics [c7fix] [c7sac]).1,
   (claim7_metrics [c7fix] [c7sac]).2 c7metrics (by
     norm_num [Analyzer.calculateMetrics, c7fix, c7sac, c7metrics,
       Analyzer.dfltFixation])⟩

/-- The minimum velocity never exceeds the maximum velocity. -/
theorem minVelOf_le_maxVelOf (pts : List Analyzer.GazePoint) (hne : pts ≠ []) :
    Analyzer.minVelOf pts ≤ Analyzer.maxVelOf pts := by
  obtain ⟨q, hq, hmin⟩ := minVelOf_attained pts hne
  rw [hmin]
  exact vel_le_maxVelOf pts q hq

/-- Appending one element to a list with a known last element extends its
pair chain by exactly the junction pair. -/
theorem zipTail_concat : ∀ (l : List ℕ) (a e : ℕ), l.getLast? = some a →
    ((l ++ [e]).zip (l ++ [e]).tail) = (l.zip l.tail) ++ [(a, e)] := by
  intro l
  induction l with
  | nil => intro a e h; cases h
  | cons x m ih =>
    intro a e h
    cases m with
    | nil =>
      rw [List.getLast?_singleton] at h
      cases h
      rfl
    | cons y m2 =>
      have h2 : (y :: m2).getLast? = some a := by
        rw [← List.getLast?_cons_cons]; exact h
      show (x, y) :: (((y :: m2) ++ [e]).zip (((y :: m2) ++ [e]).tail))
          = ((x, y) :: ((y :: m2).zip m2)) ++ [(a, e)]
      rw [ih a e h2]
      rfl

/-- Characterization of the three velocity bins as the equal-width thirds
of the velocity range. -/
theorem whichBin_char (bin1 bin2 : ℚ) (h12 : bin1 ≤ bin2) (v : ℚ) :
    (Analyzer.whichBin bin1 bin2 v = 0 ↔ v < bin1) ∧
    (Analyzer.whichBin bin1 bin2 v = 1 ↔ bin1 ≤ v ∧ v < bin2) ∧
    (Analyzer.whichBin bin1 bin2 v = 2 ↔ bin2 ≤ v) := by
  unfold Analyzer.whichBin
  split_ifs with h1 h2
  · exact ⟨⟨fun _ => h1, fun _ => rfl⟩,
      ⟨fun h => absurd h (by decide), fun hc => absurd h1 (not_lt.mpr hc.1)⟩,
      ⟨fun h => absurd h (by decide), fun hb => absurd h1 (not_lt.mpr (h12.trans hb))⟩⟩
  · exact ⟨⟨fun h => absurd h (by decide), fun hv => absurd hv h1⟩,
      ⟨fun _ => ⟨not_lt.mp h1, h2⟩, fun _ => rfl⟩,
      ⟨fun h => absurd h (by decide), fun hb => absurd h2 (not_lt.mpr hb)⟩⟩
  · exact ⟨⟨fun h => absurd h (by decide), fun hv => absurd hv h1⟩,
      ⟨fun h => absurd h (by decide), fun hc => absurd hc.2 h2⟩,
      ⟨fun _ => not_lt.mp h2, fun _ => rfl⟩⟩

/-- Invariant of the pair-grouping loop: from any intermediate state whose
already-closed segments are described by a cut list ending at the start of
the open run, the loop produces a full cut-list description. -/
theorem segLoopAux_spec (points : List Analyzer.GazePoint) (bin1 bin2 min_vel : ℚ) :
    ∀ (fuel : ℕ), ∀ (i segStart : ℕ) (segs : List Analyzer.SaccadeSegment)
      (cuts : List ℕ),
      i + fuel = points.length - 1 →
      segStart < i →
      (∀ j, segStart ≤ j → j < i →
        Analyzer.pairBin points bin1 bin2 j
          = Analyzer.pairBin points bin1 bin2 segStart) →
      cuts.Chain' (· < ·) →
      cuts.head? = some 0 →
      cuts.getLast? = some segStart →
      segs = (cuts.zip cuts.tail).map
        (fun ce => Analyzer.mkSegFromTo points min_vel ce.1 ce.2) →
      (∀ ce ∈ cuts.zip cuts.tail, ∀ j, ce.1 ≤ j → j < ce.2 →
        Analyzer.pairBin points bin1 bin2 j
          = Analyzer.pairBin points bin1 bin2 ce.1) →
      ∃ cuts2, Analyzer.CutSpec points bin1 bin2 min_vel cuts2
        (Analyzer.segLoopAux points bin1 bin2 min_vel fuel i segStart
          (some (Analyzer.pairBin points bin1 bin2 segStart)) segs) := by
  intro fuel
  induction fuel with
  | zero =>
    intro i segStart segs cuts hif his hrun hch hhd hlast hsegs hmono
    have hn : i = points.length - 1 := by omega
    have hn2 : 2 ≤ points.length := by omega
    have hdrop : points.drop segStart
        = Analyzer.pySlice points segStart ((points.length - 1) + 1) := by
      unfold Analyzer.pySlice
      rw [List.take_of_length_le]
      rw [List.length_drop]
      omega
    refine ⟨cuts ++ [points.length - 1], ?_, ?_, ?_, ?_, ?_⟩
    · rw [List.chain'_append]
      refine ⟨hch, List.chain'_singleton _, ?_⟩
      intro x hx y hy
      rw [hlast] at hx
      cases hx
      cases hy
      omega
    · rw [List.head?_append, hhd]
      rfl
    · exact List.getLast?_concat cuts
    · show segs ++ [Analyzer.mkSegment min_vel (points.drop segStart)] = _
      rw [zipTail_concat cuts segStart (points.length - 1) hlast, List.map_append,
        ← hsegs, hdrop]
      rfl
    · intro ce hce
      rw [zipTail_concat cuts segStart (points.length - 1) hlast] at hce
      rcases List.mem_append.mp hce with hce | hce
      · exact hmono ce hce
      · rcases List.mem_singleton.mp hce with rfl
        intro j hj1 hj2
        exact hrun j hj1 (by omega)
  | succ fuel ih =>
    intro i segStart segs cuts hif his hrun hch hhd hlast hsegs hmono
    rw [show Analyzer.segLoopAux points bin1 bin2 min_vel (fuel + 1) i segStart
          (some (Analyzer.pairBin points bin1 bin2 segStart)) segs
        = (if Analyzer.pairBin points bin1 bin2 i
              ≠ Analyzer.pairBin points bin1 bin2 segStart then
            Analyzer.segLoopAux points bin1 bin2 min_vel fuel (i + 1) i
              (some (Analyzer.pairBin points bin1 bin2 i))
              (segs ++ [Analyzer.mkSegment min_vel
                (Analyzer.pySlice points segStart (i + 1))])
          else
            Analyzer.segLoopAux points bin1 bin2 min_vel fuel (i + 1) segStart
              (some (Analyzer.pairBin points bin1 bin2 segStart)) segs) from rfl]
    by_cases hb : Analyzer.pairBin points bin1 bin2 i
        = Analyzer.pairBin points bin1 bin2 segStart
    · rw [if_neg (by simpa using hb)]
      refine ih (i + 1) segStart segs cuts (by omega) (by omega) ?_ hch hhd hlast hsegs hmono
      intro j hj1 hj2
      by_cases hji : j = i
      · rw [hji]; exact hb
      · exact hrun j hj1 (by omega)
    · rw [if_pos (by simpa using hb)]
      refine ih (i + 1) i
        (segs ++ [Analyzer.mkSegment min_vel (Analyzer.pySlice points segStart (i + 1))])
        (cuts ++ [i]) (by omega) (by omega) ?_ ?_ ?_ ?_ ?_ ?_
      · intro j hj1 hj2
        have : j = i := by omega
        rw [this]
      · rw [List.chain'_append]
        refine ⟨hch, List.chain'_singleton _, ?_⟩
        intro x hx y hy
        rw [hlast] at hx
        cases hx
        cases hy
        exact his
      · rw [List.head?_append, hhd]
        rfl
      · exact List.getLast?_concat cuts
      · rw [zipTail_concat cuts segStart i hlast, List.map_append, ← hsegs]
        rfl
      · intro ce hce
        rw [zipTail_concat cuts segStart i hlast] at hce
        rcases List.mem_append.mp hce with hce | hce
        · exact hmono ce hce
        · rcases List.mem_singleton.mp hce with rfl
          intro j hj1 hj2
          exact hrun j hj1 hj2

/-- Whenever the loop is started on at least two points, its output is
described by a full cut list. -/
theorem segLoop_spec (points : List Analyzer.GazePoint) (bin1 bin2 min_vel : ℚ)
    (hlen : 2 ≤ points.length) :
    ∃ cuts, Analyzer.CutSpec points bin1 bin2 min_vel cuts
      (Analyzer.segLoop points bin1 bin2 min_vel) := by
  obtain ⟨fuel, hfuel⟩ : ∃ f, points.length - 1 = f + 1 := ⟨points.length - 2, by omega⟩
  unfold Analyzer.segLoop
  rw [hfuel]
  rw [show Analyzer.segLoopAux points bin1 bin2 min_vel (fuel + 1) 0 0 none []
        = Analyzer.segLoopAux points bin1 bin2 min_vel fuel 1 0
            (some (Analyzer.pairBin points bin1 bin2 0)) [] from rfl]
  refine segLoopAux_spec points bin1 bin2 min_vel fuel 1 0 [] [0]
    (by omega) (by omega) ?_ (List.chain'_singleton 0) rfl rfl rfl ?_
  · intro j hj1 hj2
    have : j = 0 := by omega
    rw [this]
  · intro ce hce
    simp at hce

/-- C5.  For every saccade `_create_saccade` produces: the equal-velocity
test holds exactly when all point velocities are equal, in which case
there is one whole-saccade segment; otherwise the three bins are the
equal-width thirds of the velocity range, each consecutive pair is binned
on its midpoint velocity, and the segments are exactly the maximal-run
groups delimited by a strictly increasing cut list from the first to the
last point index (contiguous, no gaps, overlapping only at junction
points). -/
theorem claim5_saccade_segments (points : List Analyzer.GazePoint)
    (s : Analyzer.Saccade) (hs : Analyzer.createSaccade points = some s) :
    C5Prop points s := by
  cases points with
  | nil => simp [Analyzer.createSaccade] at hs
  | cons p0 rest =>
    cases rest with
    | nil => simp [Analyzer.createSaccade] at hs
    | cons p1 rest2 =>
      have hne : (p0 :: p1 :: rest2 : List Analyzer.GazePoint) ≠ [] :=
        List.cons_ne_nil _ _
      have hlen : 2 ≤ (p0 :: p1 :: rest2 : List Analyzer.GazePoint).length := by
        simp
      simp only [Analyzer.createSaccade, Option.some.injEq] at hs
      subst hs
      refine ⟨minVel_eq_maxVel_iff _ hne, ?_, ?_⟩
      · intro heq
        show (if Analyzer.minVelOf (p0 :: p1 :: rest2)
              = Analyzer.maxVelOf (p0 :: p1 :: rest2) then _ else _) = _
        rw [if_pos heq]
        rfl
      · intro hneq
        have hminmax : Analyzer.minVelOf (p0 :: p1 :: rest2)
            ≤ Analyzer.maxVelOf (p0 :: p1 :: rest2) := minVelOf_le_maxVelOf _ hne
        refine ⟨⟨by ring, by ring, by ring⟩, ?_, ?_⟩
        · intro v
          exact whichBin_char _ _ (by linarith) v
        · show ∃ cuts, Analyzer.CutSpec _ _ _ _ cuts
            (if Analyzer.minVelOf (p0 :: p1 :: rest2)
                = Analyzer.maxVelOf (p0 :: p1 :: rest2) then _ else _)
          rw [if_neg hneq]
          exact segLoop_spec _ _ _ _ hlen

/-- Witness for C5 at the three-point saccade `c5pts` with distinct
velocities. -/
theorem claim5_witness :
    Analyzer.createSaccade c5pts = some c5sac ∧ C5Prop c5pts c5sac := by
  have hcs : Analyzer.createSaccade c5pts = some c5sac := by
    norm_num [Analyzer.createSaccade, c5pts, c5sac, Analyzer.segLoop,
      Analyzer.segLoopAux, Analyzer.pairBin, Analyzer.whichBin, Analyzer.mkSegment,
      Analyzer.pySlice, Analyzer.minVelOf, Analyzer.maxVelOf, Analyzer.listMinQ,
      Analyzer.listMaxQ, Analyzer.dfltPoint]
  exact ⟨hcs, claim5_saccade_segments c5pts c5sac hcs⟩

end GazeTracking
